import Mathlib

/-!
Shallow embedding of the blocknative/bloom repository (Go).

Source files modelled:
  * `bloom.go`        — partitioned filter `Filter`, parameter math `k`/`m`/`s`
  * `option.go`       — `params`, functional options `WithHash`/`WithErrorRate`/`WithFillRatio`
  * `scalable.go`     — `ScalableFilter`
  * `partitioned/partitioned.go` — `PartitionedBloom` (older sub-package)

Modelling conventions:
  * Go `uint` is modelled as `ℕ`.  The only arithmetic on indices is
    `(a + b*i) % s` with `a, b < 2^32` (32-bit big-endian lanes of the digest)
    and `i < k`, where `k = ceil(log2(1/e))` is at most 1075 for any positive
    `float64` error rate, so the 64-bit computation can never wrap and the
    `% 2^64` reduction is omitted.
  * Go `float64`/`float32` configuration values (`e`, `p`, `r`) are modelled
    as `ℚ`; the transcendental parameter formulas and fill-ratio estimate are
    modelled over `ℝ`.
  * A Go `hash.Hash` is only ever used in the reset-write-sum pattern of
    `bits()`, which makes each digest computation independent of previous
    hash-object state; it is therefore modelled as a pure digest function.
  * Bit vectors (`bitset.BitSet`) are modelled as `ℕ → Bool`; the library's
    `Set`/`Test`/`ClearAll` are total on this representation, matching the
    auto-growing, false-out-of-range behaviour of the Go library.
  * Go `panic` in a constructor is modelled by an `Option` result (`none` =
    the constructor aborts and returns no object).
-/

namespace Bloom

/-- A byte, as handed to `Add`/`Check` and produced by the digest. -/
abbrev Byte := Fin 256

/-- A byte string (Go `[]byte`). -/
abbrev Bytes := List Byte

/-- A digest function (models a Go `hash.Hash` collaborator: deterministic,
reset before every use, so a pure function of its input). -/
abbrev HashFn := Bytes → Bytes

/-- Stand-in for the external `cityhash.New64()` default digest collaborator.
Per the spec the hash collaborator is only required to be a deterministic
digest of at least 8 bytes; no claim depends on its concrete values. -/
def defaultHash : HashFn := fun _ => List.replicate 8 0

/-- Stand-in for the external `fnv.New64()` digest used as the default by the
`partitioned` sub-package; again only determinism and length matter. -/
def fnvHash : HashFn := fun _ => List.replicate 8 1

/-- `binary.BigEndian.Uint32` over four bytes. -/
def beUint32 (l : Bytes) : ℕ := l.foldl (fun acc b => acc * 256 + b.val) 0

/-- `k(e) = uint(math.Ceil(math.Log2(1 / e)))` from `bloom.go`. -/
noncomputable def K (e : ℚ) : ℕ := ⌈Real.logb 2 (1 / (e : ℝ))⌉₊

/-- `m(n, p, e) = uint(math.Ceil(n / ((log p * log(1-p)) / |log e|)))` from `bloom.go`. -/
noncomputable def M (n : ℕ) (p e : ℚ) : ℕ :=
  ⌈(n : ℝ) / ((Real.log (p : ℝ) * Real.log (1 - (p : ℝ))) / |Real.log (e : ℝ)|)⌉₊

/-- `s(m, k) = uint(math.Ceil(m / k))` from `bloom.go`. -/
noncomputable def S (m k : ℕ) : ℕ := ⌈(m : ℝ) / (k : ℝ)⌉₊

/-- `params` from `option.go`: the shared configuration (hash, error rate `e`,
fill ratio `p`). -/
structure Params where
  h : HashFn
  e : ℚ
  p : ℚ

/-- A functional option (Go `type Option func(*params)`), modelled as a state
transformer on `Params`. -/
abbrev Opt := Params → Params

/-- `WithHash` from `option.go`: `nil` falls back to the cityhash default. -/
def WithHash (h : Option HashFn) : Opt :=
  fun ps => { ps with h := h.getD defaultHash }

/-- `WithErrorRate` from `option.go`: `e ≤ 0` is clamped to `0.001`. -/
def WithErrorRate (e : ℚ) : Opt :=
  fun ps => { ps with e := if e ≤ 0 then 1/1000 else e }

/-- `WithFillRatio` from `option.go`: `p ≤ 0` is clamped to `0.5`. -/
def WithFillRatio (p : ℚ) : Opt :=
  fun ps => { ps with p := if p ≤ 0 then 1/2 else p }

/-- `withDefault` from `option.go`: the defaults are prepended so user options
override them. -/
def withDefault (opt : List Opt) : List Opt :=
  [WithHash none, WithErrorRate 0, WithFillRatio 0] ++ opt

/-- Application of an option list to the zero-value `params` (Go's zero value
has a nil hash; it is immediately overwritten by the mandatory
`WithHash none` default, so the seed hash is never observable). -/
def applyOpts (opt : List Opt) : Params :=
  (withDefault opt).foldl (fun ps o => o ps) { h := defaultHash, e := 0, p := 0 }

/-- `Filter` from `bloom.go`: the partitioned bloom filter.  `b` is the set of
`k` bit partitions (partition index → bit index → bit), `bs` the scratch
buffer of bit indices written by `bits()`. -/
structure Filter where
  ps : Params
  m : ℕ
  k : ℕ
  n : ℕ
  c : ℕ
  s : ℕ
  b : ℕ → ℕ → Bool
  bs : ℕ → ℕ

/-- The body of `New` from `bloom.go` on the non-panicking path (`n ≠ 0`). -/
noncomputable def mkFilter (n : ℕ) (opt : List Opt) : Filter :=
  let ps := applyOpts opt
  let k := K ps.e
  let m := M n ps.p ps.e
  let s := S m k
  { ps := ps, m := m, k := k, n := n, c := 0, s := s,
    b := fun _ _ => false, bs := fun _ => 0 }

/-- `New` from `bloom.go`: panics (returns no object) iff `n == 0`. -/
noncomputable def New (n : ℕ) (opt : List Opt) : Option Filter :=
  if n = 0 then none else some (mkFilter n opt)

/-- The indices produced by the double-hashing scheme in `Filter.bits`:
`a` = big-endian bytes [4:8) of the digest, `b` = big-endian bytes [0:4),
index `i` is `(a + b*i) % s`. -/
def Filter.bitsIdx (f : Filter) (item : Bytes) : ℕ → ℕ :=
  let d := f.ps.h item
  let a := beUint32 ((d.drop 4).take 4)
  let b := beUint32 (d.take 4)
  fun i => (a + b * i) % f.s

/-- `Filter.bits` from `bloom.go`: recompute the digest of `item` and
overwrite the scratch entries `bs[0..k)`. -/
def Filter.bits (f : Filter) (item : Bytes) : Filter :=
  { f with bs := fun i => if i < f.k then f.bitsIdx item i else f.bs i }

/-- `bitset.BitSet.Set` on one partition. -/
def setBit (part : ℕ → Bool) (v : ℕ) : ℕ → Bool :=
  fun j => if j = v then true else part j

/-- `Filter.Add` from `bloom.go`: compute indices, set one bit per partition,
bump the insertion counter. -/
def Filter.Add (f : Filter) (item : Bytes) : Filter :=
  let g := f.bits item
  { g with
    b := fun i => if i < g.k then setBit (g.b i) (g.bs i) else g.b i
    c := g.c + 1 }

/-- `Filter.Check` from `bloom.go`: compute indices (mutating the scratch
buffer, hence the updated filter in the result) and test one bit per
partition. -/
def Filter.Check (f : Filter) (item : Bytes) : Filter × Bool :=
  let g := f.bits item
  (g, (List.range g.k).all fun i => g.b i (g.bs i))

/-- `Filter.Reset` from `bloom.go`: `ClearAll` every partition and reset the
hash state (a no-op for a pure digest function).  Note it touches neither
`k`/`m`/`s` nor the counter `c`. -/
def Filter.Reset (f : Filter) : Filter :=
  { f with b := fun _ _ => false }

/-- `Filter.EstimatedFillRatio` from `bloom.go`: `1 - exp(-c/s)`. -/
noncomputable def Filter.EstimatedFillRatio (f : Filter) : ℝ :=
  1 - Real.exp (-(f.c : ℝ) / (f.s : ℝ))

/-- `Filter.Count` from `bloom.go`. -/
def Filter.Count (f : Filter) : ℕ := f.c

/-- Folding `Add` over a list of keys. -/
def Filter.AddAll (f : Filter) (items : List Bytes) : Filter :=
  items.foldl Filter.Add f

/-- Zero value used where Go would dereference a slot that cannot exist on any
reachable state (the scalable filter's sub-filter list is never empty). -/
def defaultFilter : Filter :=
  { ps := { h := defaultHash, e := 0, p := 0 }, m := 0, k := 0, n := 0, c := 0,
    s := 0, b := fun _ _ => false, bs := fun _ => 0 }

/-- `ScalableFilter` from `scalable.go`. -/
structure ScalableFilter where
  ps : Params
  opt : List Opt
  n : ℕ
  c : ℕ
  r : ℚ
  bfs : List Filter

/-- `ScalableFilter.addBloomFilter` from `scalable.go`: append a sub-filter of
capacity `n` whose error rate is `e * r^len(bfs)`, built by `New` with the
user options plus a final `WithErrorRate`.  (`New` cannot panic here: `n ≠ 0`
was checked at construction, so the `mkFilter` path is taken.) -/
noncomputable def ScalableFilter.addBloomFilter (sbf : ScalableFilter) : ScalableFilter :=
  let e : ℚ := sbf.ps.e * sbf.r ^ sbf.bfs.length
  let bf := mkFilter sbf.n (sbf.opt ++ [WithErrorRate e])
  { sbf with bfs := sbf.bfs ++ [bf] }

/-- The body of `NewScalable` from `scalable.go` on the non-panicking path. -/
noncomputable def mkScalable (n : ℕ) (opt : List Opt) : ScalableFilter :=
  ScalableFilter.addBloomFilter
    { ps := applyOpts opt, opt := opt, n := n, c := 0, r := 9/10, bfs := [] }

/-- `NewScalable` from `scalable.go`: panics (returns no object) iff `n == 0`. -/
noncomputable def NewScalable (n : ℕ) (opt : List Opt) : Option ScalableFilter :=
  if n = 0 then none else some (mkScalable n opt)

/-- `ScalableFilter.Reset` from `scalable.go`: drop every sub-filter, zero the
global counter, rebuild one sub-filter. -/
noncomputable def ScalableFilter.Reset (sbf : ScalableFilter) : ScalableFilter :=
  ScalableFilter.addBloomFilter { sbf with bfs := [], c := 0 }

/-- The growth condition tested by `ScalableFilter.Add`:
`sbf.bfs[len-1].EstimatedFillRatio() > sbf.p`. -/
def ScalableFilter.grows (sbf : ScalableFilter) : Prop :=
  (sbf.bfs.getLastD defaultFilter).EstimatedFillRatio > (sbf.ps.p : ℝ)

open Classical in
/-- `ScalableFilter.Add` from `scalable.go`: grow iff the last sub-filter's
estimated fill ratio exceeds `p`, then add the item to the (possibly new)
last sub-filter and bump the global counter. -/
noncomputable def ScalableFilter.Add (sbf : ScalableFilter) (item : Bytes) : ScalableFilter :=
  let g := if sbf.grows then sbf.addBloomFilter else sbf
  { g with
    bfs := g.bfs.dropLast ++ [(g.bfs.getLastD defaultFilter).Add item]
    c := g.c + 1 }

/-- The loop of `ScalableFilter.Check`, acting on the reversed sub-filter
list (the Go loop runs from the last sub-filter down to the first): check
each sub-filter in turn — which updates that sub-filter's scratch buffer —
and short-circuit on the first hit. -/
def checkRevAux : List Filter → Bytes → List Filter × Bool
  | [], _ => ([], false)
  | f :: rest, item =>
    let fc := f.Check item
    if fc.2 then (fc.1 :: rest, true)
    else
      let r := checkRevAux rest item
      (fc.1 :: r.1, r.2)

/-- `ScalableFilter.Check` from `scalable.go`. -/
def ScalableFilter.Check (sbf : ScalableFilter) (item : Bytes) : ScalableFilter × Bool :=
  let r := checkRevAux sbf.bfs.reverse item
  ({ sbf with bfs := r.1.reverse }, r.2)

/-- `ScalableFilter.EstimatedFillRatio` from `scalable.go`: delegates to the
last sub-filter (Go indexes `bfs[len-1]`, which requires a non-empty list). -/
noncomputable def ScalableFilter.EstimatedFillRatio (sbf : ScalableFilter) : ℝ :=
  (sbf.bfs.getLastD defaultFilter).EstimatedFillRatio

/-- `ScalableFilter.Count` from `scalable.go`. -/
def ScalableFilter.Count (sbf : ScalableFilter) : ℕ := sbf.c

/-- Folding `Add` over a list of keys. -/
noncomputable def ScalableFilter.AddAll (sbf : ScalableFilter) (items : List Bytes) : ScalableFilter :=
  items.foldl ScalableFilter.Add sbf

/-- `PartitionedBloom` from `partitioned/partitioned.go` (the older
sub-package; same algorithm as `Filter` but with explicit `SetHasher` and
`SetErrorProbability` mutators and a recomputing `Reset`). -/
structure PartitionedBloom where
  h : HashFn
  m : ℕ
  k : ℕ
  p : ℚ
  e : ℚ
  n : ℕ
  c : ℕ
  s : ℕ
  b : ℕ → ℕ → Bool
  bs : ℕ → ℕ

/-- `New` from `partitioned/partitioned.go`.  Note: unlike `bloom.New` and
`NewScalable`, this constructor performs no `n == 0` check and always
returns an object; the `Option` result type is kept only so that all three
constructors share the same failure-signalling shape. -/
noncomputable def PartitionedBloom.New (n : ℕ) : Option PartitionedBloom :=
  let p : ℚ := 1/2
  let e : ℚ := 1/1000
  let k := K e
  let m := M n p e
  let s := S m k
  some { h := fnvHash, m := m, k := k, p := p, e := e, n := n, c := 0, s := s,
         b := fun _ _ => false, bs := fun _ => 0 }

/-- `PartitionedBloom.SetHasher`: stores the new hash function directly into
the field read by `bits()`. -/
def PartitionedBloom.SetHasher (bf : PartitionedBloom) (h : HashFn) : PartitionedBloom :=
  { bf with h := h }

/-- `PartitionedBloom.SetErrorProbability`: stores `e`; nothing else is
recomputed until `Reset`. -/
def PartitionedBloom.SetErrorProbability (bf : PartitionedBloom) (e : ℚ) : PartitionedBloom :=
  { bf with e := e }

/-- `PartitionedBloom.Reset` from `partitioned/partitioned.go`: recompute
`k`, `m`, `s` from the current `e`, `p`, `n`, reallocate all-zero partitions
and scratch, and reset the hash state (pure digest: the function is kept).
Note the insertion counter `c` is NOT touched. -/
noncomputable def PartitionedBloom.Reset (bf : PartitionedBloom) : PartitionedBloom :=
  let k := K bf.e
  let m := M bf.n bf.p bf.e
  let s := S m k
  { bf with
    k := k
    m := m
    s := s
    b := fun _ _ => false
    bs := fun _ => 0 }

/-- Index generator of `PartitionedBloom.bits` (same double-hashing scheme as
`Filter.bitsIdx`). -/
def PartitionedBloom.bitsIdx (bf : PartitionedBloom) (item : Bytes) : ℕ → ℕ :=
  let d := bf.h item
  let a := beUint32 ((d.drop 4).take 4)
  let b := beUint32 (d.take 4)
  fun i => (a + b * i) % bf.s

/-- `PartitionedBloom.bits`. -/
def PartitionedBloom.bits (bf : PartitionedBloom) (item : Bytes) : PartitionedBloom :=
  { bf with bs := fun i => if i < bf.k then bf.bitsIdx item i else bf.bs i }

/-- `PartitionedBloom.Add`. -/
def PartitionedBloom.Add (bf : PartitionedBloom) (item : Bytes) : PartitionedBloom :=
  let g := bf.bits item
  { g with
    b := fun i => if i < g.k then setBit (g.b i) (g.bs i) else g.b i
    c := g.c + 1 }

/-- `PartitionedBloom.Check`. -/
def PartitionedBloom.Check (bf : PartitionedBloom) (item : Bytes) : PartitionedBloom × Bool :=
  let g := bf.bits item
  (g, (List.range g.k).all fun i => g.b i (g.bs i))

/-- The boolean `Filter.Check` returns, expressed directly in terms of the
partitions and the index generator, without the scratch-buffer round trip
(proof vocabulary; `check_snd_eq` relates it to `Check`). -/
def Filter.checkRead (f : Filter) (item : Bytes) : Bool :=
  (List.range f.k).all fun i => f.b i (f.bitsIdx item i)

/-- States of a `ScalableFilter` reachable from a successful `NewScalable`
through the state-changing operations `Add`, `Check` and `Reset` (the ratio
and count queries read but never modify the structure). -/
inductive ScalableReachable : ScalableFilter → Prop
  | init (n : ℕ) (opt : List Opt) (hn : n ≠ 0) : ScalableReachable (mkScalable n opt)
  | add (sbf : ScalableFilter) (x : Bytes) :
      ScalableReachable sbf → ScalableReachable (sbf.Add x)
  | check (sbf : ScalableFilter) (x : Bytes) :
      ScalableReachable sbf → ScalableReachable (sbf.Check x).1
  | reset (sbf : ScalableFilter) :
      ScalableReachable sbf → ScalableReachable sbf.Reset

/-- A concrete digest for witnesses: lane `b` (bytes 0..3, big-endian) is 2,
lane `a` (bytes 4..7) is 3, so index `i` is `(3 + 2*i) % s`. -/
def hashW : HashFn := fun _ => [0, 0, 0, 2, 0, 0, 0, 3]

/-- A small concrete filter used by witnesses. -/
def filterW : Filter :=
  { ps := { h := hashW, e := 1/1000, p := 1/2 }, m := 14, k := 2, n := 1, c := 0,
    s := 7, b := fun _ _ => false, bs := fun _ => 0 }

/-- A small concrete scalable filter used by witnesses. -/
def scalableW : ScalableFilter :=
  { ps := { h := hashW, e := 1/1000, p := 1/2 }, opt := [], n := 1, c := 0,
    r := 9/10, bfs := [filterW] }

/-- Digest with lane `a` = 3 and lane `b` = 0: every derived index is 3. -/
def hash3 : HashFn := fun _ => [0, 0, 0, 0, 0, 0, 0, 3]

/-- Digest with lane `a` = 5 and lane `b` = 0: every derived index is 5. -/
def hash5 : HashFn := fun _ => [0, 0, 0, 0, 0, 0, 0, 5]

/-- Concrete `PartitionedBloom` whose single partition has exactly bit 3 set:
a `Check` hits under `hash3` and misses under `hash5`. -/
def pbW : PartitionedBloom :=
  { h := hash3, m := 10, k := 1, p := 1/2, e := 1/1000, n := 1, c := 0, s := 10,
    b := fun _ j => j == 3, bs := fun _ => 0 }

/-- Concrete `PartitionedBloom` with five recorded insertions (`c = 5`). -/
def pbC5 : PartitionedBloom :=
  { h := hash3, m := 10, k := 1, p := 1/2, e := 1/1000, n := 1, c := 5, s := 10,
    b := fun _ _ => false, bs := fun _ => 0 }

/-!
## Basic lemmas about the partitioned filter
-/

theorem bits_k (f : Filter) (x : Bytes) : (f.bits x).k = f.k := rfl

theorem bits_b (f : Filter) (x : Bytes) : (f.bits x).b = f.b := rfl

theorem bits_bs_of_lt (f : Filter) (x : Bytes) {i : ℕ} (h : i < f.k) :
    (f.bits x).bs i = f.bitsIdx x i := by
  simp [Filter.bits, h]

theorem add_k (f : Filter) (x : Bytes) : (f.Add x).k = f.k := rfl

theorem add_s (f : Filter) (x : Bytes) : (f.Add x).s = f.s := rfl

theorem add_ps (f : Filter) (x : Bytes) : (f.Add x).ps = f.ps := rfl

theorem add_bitsIdx (f : Filter) (x y : Bytes) : (f.Add y).bitsIdx x = f.bitsIdx x := rfl

theorem add_bs (f : Filter) (x : Bytes) : (f.Add x).bs = (f.bits x).bs := rfl

theorem list_all_congr {α : Type} {l : List α} {f g : α → Bool}
    (h : ∀ a ∈ l, f a = g a) : l.all f = l.all g := by
  induction l with
  | nil => rfl
  | cons a t ih =>
    simp only [List.all_cons]
    rw [h a (List.mem_cons_self a t), ih fun b hb => h b (List.mem_cons_of_mem a hb)]

/-- The boolean returned by `Check` is the direct reading of the partitions at
the derived indices. -/
theorem check_snd_eq (f : Filter) (x : Bytes) : (f.Check x).2 = f.checkRead x := by
  show (List.range f.k).all (fun i => f.b i ((f.bits x).bs i))
      = (List.range f.k).all fun i => f.b i (f.bitsIdx x i)
  refine list_all_congr fun i hi => ?_
  rw [bits_bs_of_lt f x (List.mem_range.mp hi)]

/-- Bits are only ever set, never cleared, by `Add`: a key that checks true
keeps checking true across any later `Add`. -/
theorem checkRead_add_mono (f : Filter) (x y : Bytes) (h : f.checkRead x = true) :
    (f.Add y).checkRead x = true := by
  unfold Filter.checkRead at h ⊢
  rw [List.all_eq_true] at h ⊢
  intro i hi
  have hik : i < f.k := List.mem_range.mp (by simpa using hi)
  have hb := h i (by simpa using hi)
  show (f.Add y).b i ((f.Add y).bitsIdx x i) = true
  rw [add_bitsIdx]
  simp only [Filter.Add, Filter.bits, setBit, hik, if_pos]
  split
  · rfl
  · simpa using hb

/-- Immediately after `Add x`, the key `x` checks true. -/
theorem checkRead_add_self (f : Filter) (x : Bytes) : (f.Add x).checkRead x = true := by
  unfold Filter.checkRead
  rw [List.all_eq_true]
  intro i hi
  have hik : i < f.k := List.mem_range.mp (by simpa using hi)
  show (f.Add x).b i ((f.Add x).bitsIdx x i) = true
  rw [add_bitsIdx]
  simp [Filter.Add, Filter.bits, setBit, hik]

theorem addAll_cons (f : Filter) (y : Bytes) (t : List Bytes) :
    f.AddAll (y :: t) = (f.Add y).AddAll t := rfl

theorem checkRead_addAll_mono (f : Filter) (x : Bytes) (ys : List Bytes)
    (h : f.checkRead x = true) : (f.AddAll ys).checkRead x = true := by
  induction ys generalizing f with
  | nil => exact h
  | cons y t ih => exact ih (f.Add y) (checkRead_add_mono f x y h)

/-!
## Basic lemmas about the scalable filter
-/

theorem checkRevAux_snd (l : List Filter) (x : Bytes) :
    (checkRevAux l x).2 = l.any fun f => f.checkRead x := by
  induction l with
  | nil => rfl
  | cons f t ih =>
    simp only [checkRevAux, List.any_cons]
    by_cases h : (f.Check x).2
    · simp [h, check_snd_eq f x ▸ h]
    · have hr : f.checkRead x = false := by
        rw [← check_snd_eq]; exact Bool.not_eq_true _ ▸ (by simpa using h)
      simp [h, hr, ih]

theorem scalable_check_snd (sbf : ScalableFilter) (x : Bytes) :
    (sbf.Check x).2 = sbf.bfs.any fun f => f.checkRead x := by
  show (checkRevAux sbf.bfs.reverse x).2 = _
  rw [checkRevAux_snd, List.any_reverse]

theorem scalable_add_bfs_grow (sbf : ScalableFilter) (y : Bytes) (hg : sbf.grows) :
    (sbf.Add y).bfs
      = sbf.bfs ++
        [(mkFilter sbf.n
            (sbf.opt ++ [WithErrorRate (sbf.ps.e * sbf.r ^ sbf.bfs.length)])).Add y] := by
  simp only [ScalableFilter.Add, if_pos hg, ScalableFilter.addBloomFilter]
  rw [List.dropLast_concat, List.getLastD_concat]

theorem scalable_add_bfs_stay (sbf : ScalableFilter) (y : Bytes) (hg : ¬ sbf.grows) :
    (sbf.Add y).bfs
      = sbf.bfs.dropLast ++ [(sbf.bfs.getLastD defaultFilter).Add y] := by
  simp only [ScalableFilter.Add, if_neg hg]

theorem scalable_add_ne_nil (sbf : ScalableFilter) (y : Bytes) : (sbf.Add y).bfs ≠ [] := by
  by_cases hg : sbf.grows
  · rw [scalable_add_bfs_grow sbf y hg]; simp
  · rw [scalable_add_bfs_stay sbf y hg]; simp

/-- A key present in some sub-filter stays present across any later `Add`:
old sub-filters are never mutated except for the last one, which only gains
bits. -/
theorem scalable_exists_add (sbf : ScalableFilter) (x y : Bytes) (hne : sbf.bfs ≠ [])
    (h : ∃ f ∈ sbf.bfs, f.checkRead x = true) :
    ∃ f ∈ (sbf.Add y).bfs, f.checkRead x = true := by
  obtain ⟨f0, hf0, hc⟩ := h
  by_cases hg : sbf.grows
  · rw [scalable_add_bfs_grow sbf y hg]
    exact ⟨f0, List.mem_append_left _ hf0, hc⟩
  · rw [scalable_add_bfs_stay sbf y hg]
    have hsplit : sbf.bfs.dropLast ++ [sbf.bfs.getLast hne] = sbf.bfs :=
      List.dropLast_append_getLast hne
    have hD : sbf.bfs.getLastD defaultFilter = sbf.bfs.getLast hne := by
      rw [List.getLastD_eq_getLast?, List.getLast?_eq_getLast sbf.bfs hne]; rfl
    rw [← hsplit] at hf0
    rcases List.mem_append.mp hf0 with hmem | hlast
    · exact ⟨f0, List.mem_append_left _ hmem, hc⟩
    · have : f0 = sbf.bfs.getLast hne := by simpa using hlast
      refine ⟨(sbf.bfs.getLastD defaultFilter).Add y, List.mem_append_right _ (by simp), ?_⟩
      rw [hD]
      exact checkRead_add_mono _ x y (this ▸ hc)

/-- Immediately after a scalable `Add x`, some sub-filter (the last) holds
`x`. -/
theorem scalable_exists_add_self (sbf : ScalableFilter) (x : Bytes) :
    ∃ f ∈ (sbf.Add x).bfs, f.checkRead x = true := by
  by_cases hg : sbf.grows
  · rw [scalable_add_bfs_grow sbf x hg]
    exact ⟨(mkFilter sbf.n
        (sbf.opt ++ [WithErrorRate (sbf.ps.e * sbf.r ^ sbf.bfs.length)])).Add x,
      List.mem_append_right _ (by simp), checkRead_add_self _ x⟩
  · rw [scalable_add_bfs_stay sbf x hg]
    exact ⟨(sbf.bfs.getLastD defaultFilter).Add x,
      List.mem_append_right _ (by simp), checkRead_add_self _ x⟩

theorem scalable_addAll_cons (sbf : ScalableFilter) (y : Bytes) (t : List Bytes) :
    sbf.AddAll (y :: t) = (sbf.Add y).AddAll t := rfl

theorem scalable_exists_addAll (sbf : ScalableFilter) (x : Bytes) (ys : List Bytes)
    (hne : sbf.bfs ≠ []) (h : ∃ f ∈ sbf.bfs, f.checkRead x = true) :
    ∃ f ∈ (sbf.AddAll ys).bfs, f.checkRead x = true := by
  induction ys generalizing sbf with
  | nil => exact h
  | cons y t ih =>
    rw [scalable_addAll_cons]
    exact ih (sbf.Add y) (scalable_add_ne_nil sbf y) (scalable_exists_add sbf x y hne h)

/-!
## Idempotence of Check
-/

/-- Recomputing the scratch buffer for the same key twice is the same as
computing it once. -/
theorem bits_bits (f : Filter) (x : Bytes) : (f.bits x).bits x = f.bits x := by
  cases f with
  | mk ps m k n c s b bs =>
    simp only [Filter.bits, Filter.bitsIdx]
    congr 1
    funext i
    by_cases h : i < k <;> simp [h]

/-- Re-checking the same key returns the same state and the same boolean. -/
theorem check_check (f : Filter) (x : Bytes) : (f.Check x).1.Check x = f.Check x := by
  show (f.bits x).Check x = f.Check x
  simp only [Filter.Check, bits_bits]

theorem checkRevAux_idem (l : List Filter) (x : Bytes) :
    checkRevAux (checkRevAux l x).1 x = checkRevAux l x := by
  induction l with
  | nil => rfl
  | cons f t ih =>
    by_cases h : (f.Check x).2
    · simp only [checkRevAux, if_pos h]
      simp only [checkRevAux, check_check, if_pos h]
    · simp only [checkRevAux, if_neg h]
      simp only [checkRevAux, check_check, if_neg h, ih]

theorem scalable_check_check (sbf : ScalableFilter) (x : Bytes) :
    (sbf.Check x).1.Check x = sbf.Check x := by
  cases sbf with
  | mk ps opt n c r bfs =>
    simp only [ScalableFilter.Check, List.reverse_reverse, checkRevAux_idem]

/-- C9: for every key X and every filter state, calling Check(X) repeatedly
with no intervening Add or Reset returns the same boolean every time — and
in fact the same updated state — for both the partitioned `Filter` and the
`ScalableFilter`, despite Check rewriting the internal scratch index
buffers. -/
theorem idempotentReads (f : Filter) (sbf : ScalableFilter) (x : Bytes) :
    ((f.Check x).1.Check x).2 = (f.Check x).2 ∧
    (f.Check x).1.Check x = f.Check x ∧
    ((sbf.Check x).1.Check x).2 = (sbf.Check x).2 ∧
    (sbf.Check x).1.Check x = sbf.Check x :=
  ⟨by rw [check_check], check_check f x,
   by rw [scalable_check_check], scalable_check_check sbf x⟩

/-- C1: after Add(X), Check(X) returns true, and it keeps returning true
after any further sequence of Adds, for both the partitioned `Filter` and
the `ScalableFilter` (whose sub-filter list is non-empty on every reachable
state). -/
theorem noFalseNegatives (f : Filter) (sbf : ScalableFilter) (x : Bytes) (ys : List Bytes)
    (hne : sbf.bfs ≠ []) :
    (((f.Add x).AddAll ys).Check x).2 = true ∧
    (((sbf.Add x).AddAll ys).Check x).2 = true := by
  constructor
  · rw [check_snd_eq]
    exact checkRead_addAll_mono _ x ys (checkRead_add_self f x)
  · rw [scalable_check_snd, List.any_eq_true]
    exact scalable_exists_addAll (sbf.Add x) x ys (scalable_add_ne_nil sbf x)
      (scalable_exists_add_self sbf x)

/-- Witness for C1 at a concrete filter, scalable filter and key. -/
theorem noFalseNegatives_witness :
    scalableW.bfs ≠ [] ∧
    ((((filterW.Add []).AddAll [[1]]).Check []).2 = true ∧
     (((scalableW.Add []).AddAll [[1]]).Check []).2 = true) :=
  ⟨by simp [scalableW], noFalseNegatives filterW scalableW [] [[1]] (by simp [scalableW])⟩

/-!
## C5: the double-hashing bit-index scheme
-/

/-- C5: for a digest of at least 8 bytes, with `a` the 32-bit big-endian
value of bytes [4:8) and `b` the 32-bit big-endian value of bytes [0:4),
the i-th bit index computed by `bits` — and hence used by `Add` and
`Check` — is `(a + i*b) mod s`, for every `i < k`; this holds for both the
`Filter` of `bloom.go` and the `PartitionedBloom` of the sub-package. -/
theorem doubleHashingIndices (f : Filter) (pb : PartitionedBloom) (x : Bytes) (i j : ℕ)
    (h8 : 8 ≤ (f.ps.h x).length) (hik : i < f.k)
    (h8p : 8 ≤ (pb.h x).length) (hjk : j < pb.k) :
    (f.bits x).bs i
      = (beUint32 (((f.ps.h x).drop 4).take 4) + i * beUint32 ((f.ps.h x).take 4)) % f.s ∧
    (f.Add x).bs i
      = (beUint32 (((f.ps.h x).drop 4).take 4) + i * beUint32 ((f.ps.h x).take 4)) % f.s ∧
    ((f.Check x).1).bs i
      = (beUint32 (((f.ps.h x).drop 4).take 4) + i * beUint32 ((f.ps.h x).take 4)) % f.s ∧
    (pb.bits x).bs j
      = (beUint32 (((pb.h x).drop 4).take 4) + j * beUint32 ((pb.h x).take 4)) % pb.s := by
  have hf : (f.bits x).bs i
      = (beUint32 (((f.ps.h x).drop 4).take 4) + i * beUint32 ((f.ps.h x).take 4)) % f.s := by
    rw [bits_bs_of_lt f x hik]
    simp [Filter.bitsIdx, Nat.mul_comm]
  refine ⟨hf, hf, hf, ?_⟩
  simp [PartitionedBloom.bits, hjk, PartitionedBloom.bitsIdx, Nat.mul_comm]

/-- Witness for C5 at a concrete filter state, key and index. -/
theorem doubleHashingIndices_witness :
    (8 ≤ (filterW.ps.h []).length ∧ 1 < filterW.k ∧
     8 ≤ (pbW.h []).length ∧ 0 < pbW.k) ∧
    ((filterW.bits []).bs 1
        = (beUint32 (((filterW.ps.h []).drop 4).take 4) +
            1 * beUint32 ((filterW.ps.h []).take 4)) % filterW.s ∧
     (filterW.Add []).bs 1
        = (beUint32 (((filterW.ps.h []).drop 4).take 4) +
            1 * beUint32 ((filterW.ps.h []).take 4)) % filterW.s ∧
     ((filterW.Check []).1).bs 1
        = (beUint32 (((filterW.ps.h []).drop 4).take 4) +
            1 * beUint32 ((filterW.ps.h []).take 4)) % filterW.s ∧
     (pbW.bits []).bs 0
        = (beUint32 (((pbW.h []).drop 4).take 4) +
            0 * beUint32 ((pbW.h []).take 4)) % pbW.s) :=
  ⟨⟨by decide, by decide, by decide, by decide⟩,
   doubleHashingIndices filterW pbW [] 1 0 (by decide) (by decide) (by decide) (by decide)⟩

/-!
## C3: what Reset does and does not do
-/

/-- C3 counterexample: on a `PartitionedBloom` with `c = 5`, `Reset` does not
set the insertion counter back to 0, contradicting the claim that it does. -/
theorem resetCounter_cex : (pbC5.Reset).c ≠ 0 := by
  simp [PartitionedBloom.Reset, pbC5]

/-- C3 (amended): `Reset` recomputes `k`, `m` and `s` from the current `e`,
`p` and `n`, clears every partition bit, zeroes the scratch buffer, keeps
the hash function (its mutable state is reset, which for a deterministic
digest is unobservable) — but leaves the insertion counter `c` unchanged
rather than setting it to 0. -/
theorem resetRecomputes (bf : PartitionedBloom) :
    (bf.Reset).k = K bf.e ∧
    (bf.Reset).m = M bf.n bf.p bf.e ∧
    (bf.Reset).s = S (M bf.n bf.p bf.e) (K bf.e) ∧
    (∀ i v, (bf.Reset).b i v = false) ∧
    (∀ i, (bf.Reset).bs i = 0) ∧
    (bf.Reset).h = bf.h ∧
    (bf.Reset).c = bf.c :=
  ⟨rfl, rfl, rfl, fun _ _ => rfl, fun _ => rfl, rfl, rfl⟩

/-!
## C4: zero-capacity construction
-/

/-- C4 counterexample: `partitioned.New` performs no `n == 0` check — called
with capacity 0 it still returns an object, so construction does not abort
for every constructor of the repository. -/
theorem zeroCapacity_cex : PartitionedBloom.New 0 ≠ none := by
  simp [PartitionedBloom.New]

/-- C4 (amended): `bloom.New` and `NewScalable` abort fatally (return no
object) exactly when `n == 0`, while `partitioned.New` performs no capacity
check and returns an object even for `n == 0`. -/
theorem zeroCapacityPanics (n : ℕ) (opt : List Opt) (hn : n ≠ 0) :
    New 0 opt = none ∧
    NewScalable 0 opt = none ∧
    (New n opt).isSome = true ∧
    (NewScalable n opt).isSome = true ∧
    (PartitionedBloom.New 0).isSome = true := by
  refine ⟨rfl, rfl, ?_, ?_, rfl⟩ <;> simp [New, NewScalable, hn]

/-- Witness for C4 (amended) at `n = 1`. -/
theorem zeroCapacityPanics_witness :
    (1 : ℕ) ≠ 0 ∧
    (New 0 [] = none ∧
     NewScalable 0 [] = none ∧
     (New 1 []).isSome = true ∧
     (NewScalable 1 []).isSome = true ∧
     (PartitionedBloom.New 0).isSome = true) :=
  ⟨by decide, zeroCapacityPanics 1 [] (by decide)⟩

/-!
## C6: silent clamping of out-of-range rates
-/

theorem applyOpts_clamps (opt : List Opt) (e p : ℚ) :
    (applyOpts (opt ++ [WithErrorRate e, WithFillRatio p])).e
        = (if e ≤ 0 then 1/1000 else e) ∧
    (applyOpts (opt ++ [WithErrorRate e, WithFillRatio p])).p
        = (if p ≤ 0 then 1/2 else p) := by
  unfold applyOpts withDefault
  rw [show [WithHash none, WithErrorRate 0, WithFillRatio 0] ++
        (opt ++ [WithErrorRate e, WithFillRatio p])
      = ([WithHash none, WithErrorRate 0, WithFillRatio 0] ++ opt) ++
        [WithErrorRate e, WithFillRatio p] from (List.append_assoc _ _ _).symm,
    List.foldl_append]
  simp [WithErrorRate, WithFillRatio]

theorem mkFilter_ps (n : ℕ) (opt : List Opt) : (mkFilter n opt).ps = applyOpts opt := rfl

theorem mkScalable_ps (n : ℕ) (opt : List Opt) : (mkScalable n opt).ps = applyOpts opt := rfl

/-- C6: configuration values `e ≤ 0` and `p ≤ 0` are silently replaced by
the defaults 0.001 and 0.5 at construction, and construction never aborts
because of such out-of-range settings — for both `New` and `NewScalable`. -/
theorem clampDefaults (n : ℕ) (opt : List Opt) (e p : ℚ) (hn : n ≠ 0)
    (he : e ≤ 0) (hp : p ≤ 0) :
    (New n (opt ++ [WithErrorRate e, WithFillRatio p])).isSome = true ∧
    (New n (opt ++ [WithErrorRate e, WithFillRatio p])).map (fun f => (f.ps.e, f.ps.p))
        = some (1/1000, 1/2) ∧
    (NewScalable n (opt ++ [WithErrorRate e, WithFillRatio p])).isSome = true ∧
    (NewScalable n (opt ++ [WithErrorRate e, WithFillRatio p])).map
        (fun sf => (sf.ps.e, sf.ps.p)) = some (1/1000, 1/2) := by
  have hc := applyOpts_clamps opt e p
  rw [if_pos he] at hc
  rw [if_pos hp] at hc
  refine ⟨?_, ?_, ?_, ?_⟩ <;>
    simp [New, NewScalable, hn, mkFilter_ps, mkScalable_ps, hc.1, hc.2]

/-- Witness for C6 at `n = 1`, `e = 0`, `p = -1`. -/
theorem clampDefaults_witness :
    ((1 : ℕ) ≠ 0 ∧ (0 : ℚ) ≤ 0 ∧ (-1 : ℚ) ≤ 0) ∧
    ((New 1 ([] ++ [WithErrorRate 0, WithFillRatio (-1)])).isSome = true ∧
     (New 1 ([] ++ [WithErrorRate 0, WithFillRatio (-1)])).map (fun f => (f.ps.e, f.ps.p))
        = some (1/1000, 1/2) ∧
     (NewScalable 1 ([] ++ [WithErrorRate 0, WithFillRatio (-1)])).isSome = true ∧
     (NewScalable 1 ([] ++ [WithErrorRate 0, WithFillRatio (-1)])).map
        (fun sf => (sf.ps.e, sf.ps.p)) = some (1/1000, 1/2)) :=
  ⟨⟨by decide, by norm_num, by norm_num⟩,
   clampDefaults 1 [] 0 (-1) (by decide) (by norm_num) (by norm_num)⟩

/-!
## C7: concrete values of the parameter calculator

`k(0.001) = ceil(log2 1000) = 10`, and for `n = 1000`, `p = 0.5`,
`e = 0.001` the formulas give `m = ceil(1000 * ln 1000 / (ln 2)^2) = 14378`
and `s = ceil(14378 / 10) = 1438`.  The numeric work is bounding
`ln 1000 = 9 ln 2 + 3 ln (5/4)` using Mathlib's decimal bounds on `ln 2`
and the Taylor series of `ln (1 - x)` at `x = -1/4`.
-/

theorem log_54_bounds :
    (0.223143 : ℝ) < Real.log (5/4) ∧ Real.log (5/4) < 0.223144 := by
  have habs : |(-(4⁻¹) : ℝ)| = 4⁻¹ := by
    rw [abs_neg, abs_of_nonneg]
    norm_num
  have h := Real.abs_log_sub_add_sum_range_le (show |(-(4⁻¹) : ℝ)| < 1 by
    rw [habs]; norm_num) 10
  rw [show (1 : ℝ) - -(4⁻¹) = 5/4 by norm_num, habs] at h
  rw [abs_le] at h
  obtain ⟨h1, h2⟩ := h
  norm_num [Finset.sum_range_succ] at h1 h2
  constructor <;> linarith

theorem log_1000_eq : Real.log 1000 = 9 * Real.log 2 + 3 * Real.log (5/4) := by
  rw [show (1000 : ℝ) = 2^9 * (5/4)^3 by norm_num,
    Real.log_mul (by positivity) (by positivity), Real.log_pow, Real.log_pow]
  push_cast
  ring

theorem log_1000_bounds :
    (6.9077536 : ℝ) < Real.log 1000 ∧ Real.log 1000 < 6.9077567 := by
  have h2lo := Real.log_two_gt_d9
  have h2hi := Real.log_two_lt_d9
  have h54 := log_54_bounds
  rw [log_1000_eq]
  constructor <;> linarith [h54.1, h54.2]

theorem K_1000 : K (1/1000) = 10 := by
  unfold K
  rw [show (1 / ((1/1000 : ℚ) : ℝ)) = 1000 by norm_num]
  rw [Nat.ceil_eq_iff (by norm_num)]
  have hl := log_1000_bounds
  have h2lo := Real.log_two_gt_d9
  have h2hi := Real.log_two_lt_d9
  have h2pos : (0 : ℝ) < Real.log 2 := by linarith
  simp only [Real.logb]
  constructor
  · rw [show ((10 - 1 : ℕ) : ℝ) = 9 by norm_num, lt_div_iff h2pos]
    linarith
  · rw [show ((10 : ℕ) : ℝ) = 10 by norm_num, div_le_iff h2pos]
    linarith

theorem M_1000 : M 1000 (1/2) (1/1000) = 14378 := by
  unfold M
  rw [show ((1/2 : ℚ) : ℝ) = 1/2 by norm_num,
    show ((1/1000 : ℚ) : ℝ) = 1/1000 by norm_num,
    show (1 : ℝ) - 1/2 = 1/2 by norm_num,
    show (1/2 : ℝ) = 2⁻¹ by norm_num,
    show (1/1000 : ℝ) = 1000⁻¹ by norm_num,
    Real.log_inv, Real.log_inv]
  have hl := log_1000_bounds
  have h1000pos : (0 : ℝ) < Real.log 1000 := by linarith
  rw [show |(-Real.log 1000)| = Real.log 1000 by
      rw [abs_neg, abs_of_nonneg (le_of_lt h1000pos)],
    show -Real.log 2 * -Real.log 2 = Real.log 2 * Real.log 2 by ring,
    div_div_eq_mul_div]
  have h2lo := Real.log_two_gt_d9
  have h2hi := Real.log_two_lt_d9
  have hsqlo : (0.6931471803 : ℝ) * 0.6931471803 < Real.log 2 * Real.log 2 := by nlinarith
  have hsqhi : Real.log 2 * Real.log 2 < (0.6931471808 : ℝ) * 0.6931471808 := by nlinarith
  have hpos : (0 : ℝ) < Real.log 2 * Real.log 2 := by nlinarith
  rw [Nat.ceil_eq_iff (by norm_num)]
  constructor
  · rw [show ((14378 - 1 : ℕ) : ℝ) = 14377 by norm_num, lt_div_iff hpos]
    push_cast
    linarith [hsqhi, hl.1]
  · rw [show ((14378 : ℕ) : ℝ) = 14378 by norm_num, div_le_iff hpos]
    push_cast
    linarith [hsqlo, hl.2]

theorem S_14378 : S 14378 10 = 1438 := by
  unfold S
  rw [Nat.ceil_eq_iff (by norm_num)]
  norm_num

/-- C7: the parameter calculator computes `k(e) = ceil(log2(1/e))` (stated
formula), with `k(0.001) = 10`; and at `n = 1000`, `p = 0.5`, `e = 0.001`
the derived `m` and `s` are exactly the integers the stated formulas
produce: `m = 14378` and `s = ceil(m/k) = 1438`. -/
theorem parameterDeterminism :
    (∀ e : ℚ, K e = ⌈Real.logb 2 (1 / (e : ℝ))⌉₊) ∧
    (∀ (n : ℕ) (p e : ℚ), M n p e
        = ⌈(n : ℝ) / ((Real.log (p : ℝ) * Real.log (1 - (p : ℝ))) / |Real.log (e : ℝ)|)⌉₊) ∧
    (∀ m k : ℕ, S m k = ⌈(m : ℝ) / (k : ℝ)⌉₊) ∧
    K (1/1000) = 10 ∧
    M 1000 (1/2) (1/1000) = 14378 ∧
    S (M 1000 (1/2) (1/1000)) (K (1/1000)) = 1438 :=
  ⟨fun _ => rfl, fun _ _ _ => rfl, fun _ _ => rfl, K_1000, M_1000, by
    rw [M_1000, K_1000]; exact S_14378⟩

/-!
## C2: the scalable filter growth policy
-/

theorem applyOpts_withErrorRate (opt : List Opt) (e : ℚ) :
    (applyOpts (opt ++ [WithErrorRate e])).e = if e ≤ 0 then 1/1000 else e := by
  unfold applyOpts withDefault
  rw [show [WithHash none, WithErrorRate 0, WithFillRatio 0] ++ (opt ++ [WithErrorRate e])
      = ([WithHash none, WithErrorRate 0, WithFillRatio 0] ++ opt) ++ [WithErrorRate e]
      from (List.append_assoc _ _ _).symm, List.foldl_append]
  simp [WithErrorRate]

theorem scalable_add_c (sbf : ScalableFilter) (x : Bytes) : (sbf.Add x).c = sbf.c + 1 := by
  unfold ScalableFilter.Add
  split
  · rfl
  · rfl

/-- C2: `Add(key)` grows the sub-filter list by one exactly when the last
sub-filter's estimated fill ratio strictly exceeds `p`; the appended
sub-filter has capacity `n` and error rate `e0 * r^(number of existing
sub-filters)`; the key is then added to the (now-)last sub-filter and the
global counter is incremented by one.  (`0 < e0` and `0 < r` hold on every
constructed filter: `e0` is clamped positive and `r = 0.9`.) -/
theorem scalableAddPolicy (sbf : ScalableFilter) (x : Bytes) (hne : sbf.bfs ≠ [])
    (he : 0 < sbf.ps.e) (hr : 0 < sbf.r) :
    ((sbf.Add x).bfs.length = sbf.bfs.length + 1 ↔
        (sbf.bfs.getLastD defaultFilter).EstimatedFillRatio > (sbf.ps.p : ℝ)) ∧
    (sbf.Add x).c = sbf.c + 1 ∧
    ((sbf.bfs.getLastD defaultFilter).EstimatedFillRatio > (sbf.ps.p : ℝ) →
      (sbf.Add x).bfs = sbf.bfs ++
        [(mkFilter sbf.n
            (sbf.opt ++ [WithErrorRate (sbf.ps.e * sbf.r ^ sbf.bfs.length)])).Add x] ∧
      (mkFilter sbf.n
          (sbf.opt ++ [WithErrorRate (sbf.ps.e * sbf.r ^ sbf.bfs.length)])).ps.e
        = sbf.ps.e * sbf.r ^ sbf.bfs.length ∧
      (mkFilter sbf.n
          (sbf.opt ++ [WithErrorRate (sbf.ps.e * sbf.r ^ sbf.bfs.length)])).n = sbf.n) ∧
    (¬ (sbf.bfs.getLastD defaultFilter).EstimatedFillRatio > (sbf.ps.p : ℝ) →
      (sbf.Add x).bfs = sbf.bfs.dropLast ++ [(sbf.bfs.getLastD defaultFilter).Add x]) := by
  have hlen : 0 < sbf.bfs.length := List.length_pos.mpr hne
  have hepos : 0 < sbf.ps.e * sbf.r ^ sbf.bfs.length := mul_pos he (pow_pos hr _)
  have hmk : (mkFilter sbf.n
      (sbf.opt ++ [WithErrorRate (sbf.ps.e * sbf.r ^ sbf.bfs.length)])).ps.e
      = sbf.ps.e * sbf.r ^ sbf.bfs.length := by
    rw [mkFilter_ps, applyOpts_withErrorRate, if_neg (not_le.mpr hepos)]
  refine ⟨?_, scalable_add_c sbf x,
    fun hg => ⟨scalable_add_bfs_grow sbf x hg, hmk, rfl⟩,
    fun hg => scalable_add_bfs_stay sbf x hg⟩
  by_cases hg : sbf.grows
  · exact iff_of_true (by rw [scalable_add_bfs_grow sbf x hg]; simp) hg
  · refine iff_of_false ?_ hg
    rw [scalable_add_bfs_stay sbf x hg, List.length_append, List.length_dropLast]
    simp only [List.length_singleton]
    omega

/-- Witness for C2 at a concrete scalable filter and key. -/
theorem scalableAddPolicy_witness :
    (scalableW.bfs ≠ [] ∧ 0 < scalableW.ps.e ∧ 0 < scalableW.r) ∧
    (scalableW.Add []).c = scalableW.c + 1 ∧
    ((scalableW.Add []).bfs.length = scalableW.bfs.length + 1 ↔
      (scalableW.bfs.getLastD defaultFilter).EstimatedFillRatio > (scalableW.ps.p : ℝ)) := by
  have h1 : scalableW.bfs ≠ [] := by simp [scalableW]
  have h2 : (0 : ℚ) < scalableW.ps.e := by norm_num [scalableW]
  have h3 : (0 : ℚ) < scalableW.r := by norm_num [scalableW]
  have h := scalableAddPolicy scalableW [] h1 h2 h3
  exact ⟨⟨h1, h2, h3⟩, h.2.1, h.1⟩

/-!
## C8: when the configuration setters take effect
-/

/-- C8 counterexample: `SetHasher` takes effect immediately — the very next
`Check` (with no intervening `Reset`) already derives its indices from the
new hash function and returns a different answer. -/
theorem setHasherImmediate_cex :
    ((pbW.SetHasher hash5).Check []).2 ≠ (pbW.Check []).2 := by decide

/-- C8 (amended): `SetErrorProbability(e)` only rewrites the stored `e`: the
derived parameters `k`, `m`, `s` and the results of `Add` and `Check` are
unchanged until the next `Reset`, which recomputes the parameters from the
new value.  `SetHasher(h)`, by contrast, installs the new hash function
immediately: the very next `bits` computation (hence `Add`/`Check`) derives
its indices from the new digest, while `k`, `m`, `s` and the stored bits
stay as they were. -/
theorem settersEffect (bf : PartitionedBloom) (e' : ℚ) (h' : HashFn)
    (x : Bytes) (i : ℕ) (hik : i < bf.k) :
    (bf.SetErrorProbability e').k = bf.k ∧
    (bf.SetErrorProbability e').m = bf.m ∧
    (bf.SetErrorProbability e').s = bf.s ∧
    ((bf.SetErrorProbability e').Check x).2 = (bf.Check x).2 ∧
    ((bf.SetErrorProbability e').Add x).b = ((bf.Add x).SetErrorProbability e').b ∧
    ((bf.SetErrorProbability e').Reset).k = K e' ∧
    ((bf.SetErrorProbability e').Reset).m = M bf.n bf.p e' ∧
    ((bf.SetErrorProbability e').Reset).s = S (M bf.n bf.p e') (K e') ∧
    (bf.SetHasher h').k = bf.k ∧
    (bf.SetHasher h').m = bf.m ∧
    (bf.SetHasher h').s = bf.s ∧
    (bf.SetHasher h').b = bf.b ∧
    ((bf.SetHasher h').bits x).bs i
      = (beUint32 (((h' x).drop 4).take 4) + beUint32 ((h' x).take 4) * i) % bf.s := by
  refine ⟨rfl, rfl, rfl, rfl, rfl, rfl, rfl, rfl, rfl, rfl, rfl, rfl, ?_⟩
  simp [PartitionedBloom.bits, PartitionedBloom.SetHasher, hik, PartitionedBloom.bitsIdx]

/-- Witness for C8 (amended) at a concrete filter, new hash and index. -/
theorem settersEffect_witness :
    0 < pbW.k ∧
    ((pbW.SetErrorProbability (1/2)).Check []).2 = (pbW.Check []).2 ∧
    ((pbW.SetHasher hash5).bits []).bs 0
      = (beUint32 (((hash5 []).drop 4).take 4) + beUint32 ((hash5 []).take 4) * 0) % pbW.s := by
  have h := settersEffect pbW (1/2) hash5 [] 0 (by decide)
  exact ⟨by decide, h.2.2.2.1, h.2.2.2.2.2.2.2.2.2.2.2.2⟩

/-!
## C10: the sub-filter sequence is never empty
-/

theorem checkRevAux_length (l : List Filter) (x : Bytes) :
    (checkRevAux l x).1.length = l.length := by
  induction l with
  | nil => rfl
  | cons f t ih =>
    simp only [checkRevAux]
    by_cases h : (f.Check x).2
    · simp [h]
    · simp [h, ih]

/-- C10: on every reachable state of a `ScalableFilter` — after construction
and after any sequence of `Add`, `Check` and `Reset` (the ratio and count
queries do not modify the state) — the sub-filter sequence is non-empty, so
the `bfs[len(bfs)-1]` accesses in `Add` and `EstimatedFillRatio` are in
bounds. -/
theorem subFiltersNonempty (sbf : ScalableFilter) (h : ScalableReachable sbf) :
    sbf.bfs ≠ [] := by
  induction h with
  | init n opt hn => simp [mkScalable, ScalableFilter.addBloomFilter]
  | add sbf x _ _ => exact scalable_add_ne_nil sbf x
  | check sbf x _ ih =>
    have hlen : (sbf.Check x).1.bfs.length = sbf.bfs.length := by
      show (checkRevAux sbf.bfs.reverse x).1.reverse.length = _
      rw [List.length_reverse, checkRevAux_length, List.length_reverse]
    intro hnil
    rw [hnil] at hlen
    exact ih (List.eq_nil_of_length_eq_zero hlen.symm)
  | reset sbf _ _ => simp [ScalableFilter.Reset, ScalableFilter.addBloomFilter]

/-- Witness for C10 at the state constructed by `NewScalable 1`. -/
theorem subFiltersNonempty_witness : (mkScalable 1 []).bfs ≠ [] :=
  subFiltersNonempty (mkScalable 1 []) (ScalableReachable.init 1 [] (by decide))

end Bloom
